import Mathlib

/-!
Shallow embedding of react-flip-move's prop converter
(src/src/prop-converter.js), together with theorems settling the
claims about its normalization pipeline.

The embedding models JavaScript values as an inductive type `JSVal`
(numbers carry a NaN case; the only numeric operations the source
performs on them are typeof tests, parseInt and isNaN, so finite
doubles are represented by rationals), props objects as association
lists of string keys to values, and the pipeline of `convertProps`
stage by stage, each stage annotated with the source lines it embeds.
Side effects (console.warn / console.error) are modelled as an output
list of diagnostics.
-/

namespace FlipMove

/-- JavaScript numbers, as far as this module observes them: the source
only applies typeof, parseInt and isNaN to them and passes them through,
so finite doubles are embedded as rationals, with NaN and the two
infinities as separate cases. -/
inductive JSNum where
  | nan
  | finite (q : ℚ)
  | posInf
  | negInf
deriving DecidableEq, Repr

/-- Whether a JS number is an integer (finite with denominator 1). -/
def JSNum.isInt : JSNum → Bool
  | JSNum.finite q => q.den = 1
  | _ => false

/-- JavaScript values as observed by prop-converter.js.  React elements
are modelled by their identity, their key (a string, or absent, i.e.
undefined) and the answer the external capability detector
isElementAnSFC gives for them.  Opaque caller-supplied functions carry
an identity tag; `closureConst v` is the closure created by the
arrow function in convertAnimationProp, which returns `v` when called
with no arguments. -/
inductive JSVal where
  | undef
  | null
  | bool (b : Bool)
  | num (n : JSNum)
  | str (s : String)
  | func (id : Nat)
  | elem (id : Nat) (key : Option String) (sfc : Bool)
  | closureConst (v : JSVal)
  | arr (elems : List JSVal)
  | obj (fields : List (String × JSVal))

/-- typeof v === 'function' -/
def JSVal.isFunction : JSVal → Bool
  | JSVal.func _ => true
  | JSVal.closureConst _ => true
  | _ => false

/-- typeof v === 'string' -/
def JSVal.isString : JSVal → Bool
  | JSVal.str _ => true
  | _ => false

/-- typeof v === 'number' -/
def JSVal.isNumber : JSVal → Bool
  | JSVal.num _ => true
  | _ => false

/-- Calling a zero-argument function value: statically known only for
the constant closures produced by convertAnimationProp. -/
def JSVal.call0 : JSVal → Option JSVal
  | JSVal.closureConst v => some v
  | _ => none

/-- typeof v === 'undefined' -/
def JSVal.isUndefined : JSVal → Bool
  | JSVal.undef => true
  | _ => false

/-- parseInt helper: value of a list of decimal digits. -/
def digitsToNat (ds : List Char) : Nat :=
  ds.foldl (fun acc c => acc * 10 + (c.toNat - 48)) 0

/-- parseInt(s, 10): skip leading whitespace, optional sign, then the
longest prefix of decimal digits; NaN when there is no digit. -/
def parseIntBase10 (s : String) : JSNum :=
  let cs := s.toList.dropWhile Char.isWhitespace
  let signed : Bool × List Char :=
    match cs with
    | '-' :: rest => (true, rest)
    | '+' :: rest => (false, rest)
    | _ => (false, cs)
  let ds := signed.2.takeWhile Char.isDigit
  if ds.isEmpty then JSNum.nan
  else JSNum.finite (if signed.1 then -(digitsToNat ds : ℚ) else (digitsToNat ds : ℚ))

def isHexDigitChar (c : Char) : Bool :=
  c.isDigit || (c.toNat ≥ 97 && c.toNat ≤ 102) || (c.toNat ≥ 65 && c.toNat ≤ 70)

/-- Exponent part of the ECMAScript StrDecimalLiteral grammar: either
nothing, or e/E, an optional sign, and at least one digit (and nothing
after). -/
def expPartOk : List Char → Bool
  | [] => true
  | c :: rest =>
    if c = 'e' || c = 'E' then
      let rest2 : List Char :=
        match rest with
        | '+' :: r => r
        | '-' :: r => r
        | r => r
      !(rest2.takeWhile Char.isDigit).isEmpty && (rest2.dropWhile Char.isDigit).isEmpty
    else false

/-- Unsigned ECMAScript decimal literal: digits, digits.digits or
.digits, followed by an optional exponent part. -/
def decLiteralOk (cs : List Char) : Bool :=
  let intPart := cs.takeWhile Char.isDigit
  let rest := cs.dropWhile Char.isDigit
  match rest with
  | '.' :: rest2 =>
    let frac := rest2.takeWhile Char.isDigit
    let rest3 := rest2.dropWhile Char.isDigit
    (!intPart.isEmpty || !frac.isEmpty) && expPartOk rest3
  | _ => !intPart.isEmpty && expPartOk rest

/-- Whether Number(s) is NaN, following the ECMAScript ToNumber grammar
for strings: trimmed empty string is 0; Infinity with optional sign;
unsigned hex/binary/octal literals; otherwise a signed decimal literal. -/
def stringToNumberIsNaN (s : String) : Bool :=
  let cs := ((s.toList.dropWhile Char.isWhitespace).reverse.dropWhile Char.isWhitespace).reverse
  match cs with
  | [] => false
  | '0' :: 'x' :: rest => rest.isEmpty || !(rest.all isHexDigitChar)
  | '0' :: 'X' :: rest => rest.isEmpty || !(rest.all isHexDigitChar)
  | '0' :: 'b' :: rest => rest.isEmpty || !(rest.all (fun c => c = '0' || c = '1'))
  | '0' :: 'B' :: rest => rest.isEmpty || !(rest.all (fun c => c = '0' || c = '1'))
  | '0' :: 'o' :: rest => rest.isEmpty || !(rest.all (fun c => c ≥ '0' && c ≤ '7'))
  | '0' :: 'O' :: rest => rest.isEmpty || !(rest.all (fun c => c ≥ '0' && c ≤ '7'))
  | _ =>
    let body : List Char :=
      match cs with
      | '+' :: r => r
      | '-' :: r => r
      | r => r
    if body = ['I', 'n', 'f', 'i', 'n', 'i', 't', 'y'] then false
    else !(decLiteralOk body)

/-- The global isNaN(v): ToNumber(v) is NaN.  For arrays this follows
JS ToPrimitive: [] is 0, a multi-element array stringifies with a comma
and is NaN, and a one-element array stringifies to its element's string
(so [undefined] and [null] give the empty string, hence 0; a boolean
element stringifies to a non-numeric word, hence NaN; numbers, strings
and nested arrays defer to their own conversion). -/
def jsIsNaN : JSVal → Bool
  | JSVal.undef => true
  | JSVal.null => false
  | JSVal.bool _ => false
  | JSVal.num n => decide (n = JSNum.nan)
  | JSVal.str s => stringToNumberIsNaN s
  | JSVal.func _ => true
  | JSVal.closureConst _ => true
  | JSVal.elem _ _ _ => true
  | JSVal.obj _ => true
  | JSVal.arr [] => false
  | JSVal.arr [ JSVal.undef] => false
  | JSVal.arr [JSVal.null] => false
  | JSVal.arr [JSVal.bool _] => true
  | JSVal.arr [x] => jsIsNaN x
  | JSVal.arr _ => true

/-! ## Props objects as association lists -/

/-- A props object: an association list from field names to values.
JS objects have unique keys; none of the theorems below depend on
uniqueness because all statements are phrased through getProp, which
returns the first binding. -/
abbrev Props := List (String × JSVal)

def getProp : Props → String → Option JSVal
  | [], _ => none
  | p :: rest, k => if p.1 = k then some p.2 else getProp rest k

/-- Property read obj[k], yielding undefined for a missing key. -/
def getPropD (P : Props) (k : String) : JSVal :=
  (getProp P k).getD JSVal.undef

def hasKey : Props → String → Bool
  | [], _ => false
  | p :: rest, k => if p.1 = k then true else hasKey rest k

/-- Property assignment obj[k] = v: overwrite the binding in place when
the key exists, otherwise append the new binding at the end. -/
def setProp (P : Props) (k : String) (v : JSVal) : Props :=
  if hasKey P k then P.map (fun p => if p.1 = k then (k, v) else p)
  else P ++ [(k, v)]

/-- Modelled from the spec: the object-subtraction contract
omit(object, keysToRemove) -> newObjectWithoutThoseKeys (helpers.js is
not included under src/).  Named omitProps because omit is a reserved
word in Lean. -/
def omitProps : Props → List String → Props
  | [], _ => []
  | p :: rest, keys =>
    if keys.contains p.1 then omitProps rest keys
    else p :: omitProps rest keys

def keysOf (P : Props) : List String := P.map Prod.fst

/-- typeof P[k] !== 'undefined' -/
def definedOn (P : Props) (k : String) : Bool :=
  !(getPropD P k).isUndefined

/-! ## The schema: propTypes keys and defaultProps -/

def timingPropNames : List String :=
  ["duration", "delay", "staggerDurationBy", "staggerDelayBy"]

/-- Modelled from the spec: the default preset exposed by the external
preset registry (enter-leave-presets.js is not included under src/); an
opaque preset value the normalizer never inspects. -/
def defaultPreset : JSVal := JSVal.str "default-preset"

/-- Modelled from the spec: the platform bounding-box getter default,
an opaque function value. -/
def defaultGetPosition : JSVal := JSVal.func 0

/-- Object.keys(FlipMovePropConverter.propTypes), in declaration order
(source lines 123-164). -/
def primaryPropKeys : List String :=
  ["children", "easing", "duration", "delay", "staggerDurationBy",
   "staggerDelayBy", "onStart", "onFinish", "onStartAll", "onFinishAll",
   "typeName", "enterClassName", "leaveClassName", "disableAllAnimations",
   "getPosition", "maintainContainerHeight"]

/-- FlipMovePropConverter.defaultProps (source lines 166-178). -/
def defaultProps : Props :=
  [("easing", JSVal.str "ease-in-out"),
   ("duration", JSVal.num (JSNum.finite 350)),
   ("delay", JSVal.num (JSNum.finite 0)),
   ("staggerDurationBy", JSVal.num (JSNum.finite 0)),
   ("staggerDelayBy", JSVal.num (JSNum.finite 0)),
   ("typeName", JSVal.str "div"),
   ("enterClassName", defaultPreset),
   ("leaveClassName", defaultPreset),
   ("disableAllAnimations", JSVal.bool false),
   ("getPosition", defaultGetPosition),
   ("maintainContainerHeight", JSVal.bool false)]

/-- Modelled from the spec: the host framework's schema merge (React
defaultProps semantics, spec section 9: effective = defaults merged with
explicitly-provided fields; a field counts as provided when its value
is not undefined). -/
def mergedProps (raw : Props) : Props :=
  raw.map (fun p => if p.2.isUndefined then (p.1, getPropD defaultProps p.1) else p) ++
  defaultProps.filter (fun d => !(hasKey raw d.1))

/-! ## Children -/

mutual

/-- Modelled from the spec: React.Children.toArray, the host framework's
flattening of the children value into a flat ordered sequence, dropping
null, undefined and boolean entries (spec section 4.1). -/
def childrenToArray : JSVal → List JSVal
  | JSVal.undef => []
  | JSVal.null => []
  | JSVal.bool _ => []
  | JSVal.arr xs => childrenToArrayList xs
  | v => [v]

/-- Flattening of a list of children values, preserving order. -/
def childrenToArrayList : List JSVal → List JSVal
  | [] => []
  | x :: xs => childrenToArray x ++ childrenToArrayList xs

end

/-- Modelled from the spec: the capability-detection contract
isElementAnSFC(child) -> boolean (helpers.js is not included under
src/); the detector's answer is carried on the element itself. -/
def isElementAnSFC : JSVal → Bool
  | JSVal.elem _ _ sfc => sfc
  | _ => false

/-- typeof child.key === 'undefined': elements carry an optional key;
on non-element children (text nodes) the key access yields undefined. -/
def childKeyIsUndefined : JSVal → Bool
  | JSVal.elem _ key _ => key.isNone
  | _ => true

/-! ## Diagnostics -/

/-- The console.warn / console.error emissions of convertProps, with the
structured context handed to the message-builder functions (the
formatting itself lives in error-messages.js, an external collaborator). -/
inductive Diagnostic where
  | statelessWarning
  | invalidTiming (prop : String) (value : JSVal) (defaultValue : JSVal)
  | deprecatedDisableAnimations

def Diagnostic.isInvalidTimingFor (f : String) : Diagnostic → Bool
  | Diagnostic.invalidTiming p _ _ => decide (p = f)
  | _ => false

def Diagnostic.isDeprecation : Diagnostic → Bool
  | Diagnostic.deprecatedDisableAnimations => true
  | _ => false

def Diagnostic.isStatelessWarn : Diagnostic → Bool
  | Diagnostic.statelessWarning => true
  | _ => false

/-! ## The pipeline (convertProps, source lines 30-113) -/

/-- Source lines 111-113: pass a function through, wrap anything else in
a zero-argument closure returning it. -/
def convertAnimationProp (animation : JSVal) : JSVal :=
  if animation.isFunction then animation else JSVal.closureConst animation

/-- Source lines 59-61: parse strings as base-10 integers, use any other
value as-is. -/
def timingCoerce : JSVal → JSVal
  | JSVal.str s => JSVal.num (parseIntBase10 s)
  | v => v

/-- Source lines 57-76, one iteration of the forEach over the timing
prop names: coerce, and on NaN log an error and fall back to the
field's own default. -/
def timingStep (acc : Props × List Diagnostic) (prop : String) :
    Props × List Diagnostic :=
  let value := timingCoerce (getPropD acc.1 prop)
  if jsIsNaN value then
    let defaultValue := getPropD defaultProps prop
    (setProp acc.1 prop defaultValue,
     acc.2 ++ [Diagnostic.invalidTiming prop value defaultValue])
  else
    (setProp acc.1 prop value, acc.2)

/-- Source line 38: store the children, standardized to an array. -/
def withChildrenArray (P : Props) : Props :=
  setProp P "children" (JSVal.arr (childrenToArray (getPropD P "children")))

/-- Source lines 44-46: every canonicalized child must be a non-SFC or
key-less (key-less children are not animated and may be SFCs). -/
def noStatelessOf (P : Props) : Bool :=
  (childrenToArray (getPropD P "children")).all
    (fun child => !isElementAnSFC child || childKeyIsUndefined child)

/-- Source lines 52-76: the forEach over the four timing prop names,
threading the working copy and the emitted diagnostics. -/
def timingResult (P : Props) : Props × List Diagnostic :=
  timingPropNames.foldl timingStep (P, [])

/-- Source lines 81-82: standardize both animation props. -/
def withAnimationProps (P : Props) : Props :=
  let P2 := setProp P "enterClassName" (convertAnimationProp (getPropD P "enterClassName"))
  setProp P2 "leaveClassName" (convertAnimationProp (getPropD P2 "leaveClassName"))

/-- Source lines 84-89, working-copy effect: when disableAnimations is
defined on the original props, clear it (to undefined) and copy its
value onto disableAllAnimations. -/
def shimDisableAnimations (origProps P : Props) : Props :=
  if definedOn origProps "disableAnimations" then
    setProp (setProp P "disableAnimations" JSVal.undef)
      "disableAllAnimations" (getPropD origProps "disableAnimations")
  else P

/-- Object spread {...base, ...extra}: later bindings overwrite. -/
def objSpread (base extra : Props) : Props :=
  extra.foldl (fun acc p => setProp acc p.1 p.2) base

/-- Spreading a value into an object literal: objects contribute their
fields, strings and arrays their indexed entries, everything else
nothing. -/
def spreadEntries : JSVal → Props
  | JSVal.obj fields => fields
  | JSVal.str s => s.toList.enum.map (fun p => (toString p.1, JSVal.str p.2.toString))
  | JSVal.arr xs => xs.enum.map (fun p => (toString p.1, p.2))
  | _ => []

/-- Source lines 99-102: style gets position relative unless the
caller's own style overrides it. -/
def styleWithPosition (style : JSVal) : JSVal :=
  JSVal.obj (objSpread [("position", JSVal.str "relative")] (spreadEntries style))

/-- Source lines 93-102: the delegated props are the original props
minus the recognized schema keys, with the merged style forced in. -/
def delegatedOf (props : Props) : Props :=
  let delegatedProps := omitProps props primaryPropKeys
  setProp delegatedProps "style" (styleWithPosition (getPropD delegatedProps "style"))

structure ConvertResult where
  props : Props
  diags : List Diagnostic

/-- convertProps (source lines 30-108), on the post-schema-merge props;
the stages run in source order and the diagnostics are collected in
emission order (stateless warning, timing errors, deprecation warning). -/
def convertProps (props : Props) : ConvertResult :=
  let wp1 := withChildrenArray props
  let d1 : List Diagnostic :=
    if noStatelessOf props then [] else [Diagnostic.statelessWarning]
  let tr := timingResult wp1
  let wp4 := withAnimationProps tr.1
  let wp5 := shimDisableAnimations props wp4
  let delegatedProps := delegatedOf props
  let wp6 := omitProps wp5 (keysOf delegatedProps)
  let wp7 := setProp wp6 "delegated" (JSVal.obj delegatedProps)
  { props := wp7,
    diags := d1 ++ tr.2 ++
      (if definedOn props "disableAnimations" then
        [Diagnostic.deprecatedDisableAnimations] else []) }

/-- The whole normalization as seen from the caller: schema merge (the
host framework's defaultProps semantics) followed by convertProps. -/
def normalize (raw : Props) : ConvertResult :=
  convertProps (mergedProps raw)

/-! ## Closed forms used to state the characterization lemmas -/

/-- The value the timing coercer ends up storing for a field: the
coerced value, or the field's own schema default when the coerced value
is NaN. -/
def coerceTimingValue (prop : String) (rawValue : JSVal) : JSVal :=
  if jsIsNaN (timingCoerce rawValue) then getPropD defaultProps prop
  else timingCoerce rawValue

/-- The diagnostics the timing coercer emits for one field. -/
def timingDiagsFor (P : Props) (prop : String) : List Diagnostic :=
  if jsIsNaN (timingCoerce (getPropD P prop)) then
    [Diagnostic.invalidTiming prop (timingCoerce (getPropD P prop))
      (getPropD defaultProps prop)]
  else []

/-- Closed form for the top-level value of the canonical output at each
key, mirroring the pipeline branch structure from the outside in. -/
def canonValue (P : Props) (k : String) : Option JSVal :=
  if k = "delegated" then some (JSVal.obj (delegatedOf P))
  else if (keysOf (delegatedOf P)).contains k then none
  else if definedOn P "disableAnimations" ∧ k = "disableAllAnimations" then
    some (getPropD P "disableAnimations")
  else if definedOn P "disableAnimations" ∧ k = "disableAnimations" then
    some JSVal.undef
  else if k = "leaveClassName" then
    some (convertAnimationProp (getPropD P "leaveClassName"))
  else if k = "enterClassName" then
    some (convertAnimationProp (getPropD P "enterClassName"))
  else if k = "staggerDelayBy" then some (coerceTimingValue k (getPropD P k))
  else if k = "staggerDurationBy" then some (coerceTimingValue k (getPropD P k))
  else if k = "delay" then some (coerceTimingValue k (getPropD P k))
  else if k = "duration" then some (coerceTimingValue k (getPropD P k))
  else if k = "children" then
    some (JSVal.arr (childrenToArray (getPropD P "children")))
  else getProp P k

/-- A value React.Children.toArray can emit as an entry: flattened (not
an array) and not one of the dropped falsy kinds. -/
def isFlatChild : JSVal → Bool
  | JSVal.undef => false
  | JSVal.null => false
  | JSVal.bool _ => false
  | JSVal.arr _ => false
  | _ => true

/-- Whether some canonicalized child is a stateless functional component
carrying a defined key (the condition the capability validator warns
about). -/
def badChildOf (P : Props) : Bool :=
  (childrenToArray (getPropD P "children")).any
    (fun c => isElementAnSFC c && !childKeyIsUndefined c)

/-- The canonical output without its delegated bag: the fields the
orchestration component itself consumes. -/
def nonDelegatedOf (R : ConvertResult) : Props :=
  omitProps R.props ["delegated"]

/-- The property claim C1 asserts about one timing field of one raw
input: strings parse as base-10 integers and other values pass through;
a NaN result is replaced by that field's own schema default together
with exactly one diagnostic carrying the field, the offending value and
that default; a non-NaN result is stored as-is with no diagnostic. -/
def TimingFieldClaim (raw : Props) (f : String) : Prop :=
  (jsIsNaN (timingCoerce (getPropD (mergedProps raw) f)) = false →
    getProp (normalize raw).props f
      = some (timingCoerce (getPropD (mergedProps raw) f)) ∧
    (normalize raw).diags.countP (Diagnostic.isInvalidTimingFor f) = 0) ∧
  (jsIsNaN (timingCoerce (getPropD (mergedProps raw) f)) = true →
    getProp (normalize raw).props f = some (getPropD defaultProps f) ∧
    (normalize raw).diags.countP (Diagnostic.isInvalidTimingFor f) = 1 ∧
    Diagnostic.invalidTiming f (timingCoerce (getPropD (mergedProps raw) f))
      (getPropD defaultProps f) ∈ (normalize raw).diags) ∧
  (∀ s : String, getPropD (mergedProps raw) f = JSVal.str s →
    timingCoerce (getPropD (mergedProps raw) f) = JSVal.num (parseIntBase10 s)) ∧
  ((getPropD (mergedProps raw) f).isString = false →
    timingCoerce (getPropD (mergedProps raw) f) = getPropD (mergedProps raw) f)

/-- The amended claim C2 asserts about one timing field: when the
effective raw value is a string or a number, the canonical value is a
number that is never NaN; string inputs (and a direct NaN) always yield
integers, while any other number is passed through unchanged (so a
non-integer number survives as such). -/
def TimingOutputClaim (raw : Props) (f : String) : Prop :=
  ∃ n : JSNum,
    getProp (normalize raw).props f = some (JSVal.num n) ∧
    n ≠ JSNum.nan ∧
    ((getPropD (mergedProps raw) f).isString = true → n.isInt = true) ∧
    (getPropD (mergedProps raw) f = JSVal.num JSNum.nan → n.isInt = true) ∧
    (∀ m : JSNum, getPropD (mergedProps raw) f = JSVal.num m → m ≠ JSNum.nan →
      n = m)

/-- The amended claim C3 asserts about one raw input: a deprecation
diagnostic, the value transfer onto disableAllAnimations and the removal
of the legacy field happen exactly when disableAnimations is present
with a defined (non-undefined) value; otherwise nothing happens and
disableAllAnimations keeps its schema-merged value. -/
def DisableAnimShimClaim (raw : Props) : Prop :=
  (definedOn raw "disableAnimations" = true →
    (normalize raw).diags.countP Diagnostic.isDeprecation = 1 ∧
    getProp (normalize raw).props "disableAllAnimations"
      = some (getPropD raw "disableAnimations") ∧
    getProp (normalize raw).props "disableAnimations" = none) ∧
  (definedOn raw "disableAnimations" = false →
    (normalize raw).diags.countP Diagnostic.isDeprecation = 0 ∧
    getProp (normalize raw).props "disableAllAnimations"
      = getProp (mergedProps raw) "disableAllAnimations")

/-- The property claim C4 asserts about one raw input: the canonical
output carries a delegated object whose style sub-object is exactly the
caller's style fields shallow-merged over position: relative, and every
non-schema caller field lands in the delegated bag with its original
value while disappearing from the top level (the key named delegated
itself is the subject of claim C5). -/
def DelegatedStyleClaim (raw : Props) : Prop :=
  ∃ d : Props,
    getProp (normalize raw).props "delegated" = some (JSVal.obj d) ∧
    (∃ st : Props, getProp d "style" = some (JSVal.obj st) ∧
      ∀ k : String, getProp st k =
        (match getProp raw "style" with
         | some (JSVal.obj fields) =>
           (match getProp fields k with
            | some v => some v
            | none => if k = "position" then some (JSVal.str "relative") else none)
         | _ => if k = "position" then some (JSVal.str "relative") else none)) ∧
    (∀ k : String, primaryPropKeys.contains k = false → k ≠ "style" →
      getProp d k = getProp raw k) ∧
    (∀ k : String, primaryPropKeys.contains k = false → k ≠ "style" →
      k ≠ "delegated" → getProp (normalize raw).props k = none)

/-- The property claim C6 asserts about one animation field of one raw
input: a callable passes through identically, anything else is wrapped
into a zero-argument callable returning exactly that value; and a
defined caller-supplied value is what gets converted. -/
def AnimPropClaim (raw : Props) (field : String) : Prop :=
  ∃ out : JSVal,
    getProp (normalize raw).props field = some out ∧
    out = convertAnimationProp (getPropD (mergedProps raw) field) ∧
    ((getPropD (mergedProps raw) field).isFunction = true →
      out = getPropD (mergedProps raw) field) ∧
    ((getPropD (mergedProps raw) field).isFunction = false →
      out.isFunction = true ∧ out.call0 = some (getPropD (mergedProps raw) field)) ∧
    (∀ v : JSVal, getProp raw field = some v → v.isUndefined = false →
      getPropD (mergedProps raw) field = v)

/-! ## Pointwise lemmas about the props operations -/

theorem getProp_map_key_preserving (P : Props) (g : String → JSVal → JSVal) (k : String) :
    getProp (P.map (fun p => (p.1, g p.1 p.2))) k = (getProp P k).map (g k) := by
  induction P with
  | nil => rfl
  | cons p rest ih =>
    simp only [List.map, getProp]
    by_cases h : p.1 = k
    · subst h; simp
    · simp [h, ih]

theorem hasKey_eq_isSome (P : Props) (k : String) :
    hasKey P k = (getProp P k).isSome := by
  induction P with
  | nil => rfl
  | cons p rest ih =>
    simp only [hasKey, getProp]
    by_cases h : p.1 = k <;> simp [h, ih]

theorem getProp_append (A B : Props) (k : String) :
    getProp (A ++ B) k =
      match getProp A k with
      | some v => some v
      | none => getProp B k := by
  induction A with
  | nil => rfl
  | cons p rest ih =>
    simp only [List.cons_append, getProp]
    by_cases h : p.1 = k <;> simp [h, ih]

theorem getProp_map_overwrite_ne (P : Props) (k : String) (v : JSVal) (q : String)
    (hq : q ≠ k) :
    getProp (P.map (fun p => if p.1 = k then (k, v) else p)) q = getProp P q := by
  induction P with
  | nil => rfl
  | cons p rest ih =>
    by_cases h1 : p.1 = k
    · subst h1
      rw [List.map_cons, if_pos rfl]
      show (if p.1 = q then some v else _) = if p.1 = q then some p.2 else _
      rw [if_neg (fun h => hq h.symm), if_neg (fun h => hq h.symm), ih]
    · rw [List.map_cons, if_neg h1]
      show (if p.1 = q then some p.2 else _) = if p.1 = q then some p.2 else _
      by_cases h2 : p.1 = q
      · rw [if_pos h2, if_pos h2]
      · rw [if_neg h2, if_neg h2, ih]

theorem getProp_map_overwrite_self (P : Props) (k : String) (v : JSVal)
    (hk : hasKey P k = true) :
    getProp (P.map (fun p => if p.1 = k then (k, v) else p)) k = some v := by
  induction P with
  | nil => simp [hasKey] at hk
  | cons p rest ih =>
    by_cases h1 : p.1 = k
    · rw [List.map_cons, if_pos h1]
      show (if k = k then some v else _) = some v
      rw [if_pos rfl]
    · rw [List.map_cons, if_neg h1]
      show (if p.1 = k then some p.2 else _) = some v
      rw [if_neg h1]
      rw [hasKey, if_neg h1] at hk
      exact ih hk

theorem getProp_setProp (P : Props) (k : String) (v : JSVal) (q : String) :
    getProp (setProp P k v) q = if q = k then some v else getProp P q := by
  unfold setProp
  by_cases hk : hasKey P k
  · rw [if_pos hk]
    by_cases h2 : q = k
    · subst h2; rw [if_pos rfl]; exact getProp_map_overwrite_self P q v hk
    · rw [if_neg h2]; exact getProp_map_overwrite_ne P k v q h2
  · rw [if_neg hk, getProp_append]
    by_cases h2 : q = k
    · subst h2
      have hnone : getProp P q = none := by
        rw [hasKey_eq_isSome] at hk
        cases hgp : getProp P q <;> simp [hgp] at hk ⊢
      rw [hnone, if_pos rfl]
      simp [getProp]
    · rw [if_neg h2]
      cases hgp : getProp P q with
      | some w => rfl
      | none =>
        show getProp [(k, v)] q = none
        rw [getProp, if_neg (fun h : k = q => h2 h.symm)]
        rfl

theorem getProp_omitProps (P : Props) (keys : List String) (k : String) :
    getProp (omitProps P keys) k =
      if keys.contains k then none else getProp P k := by
  induction P with
  | nil => cases h : keys.contains k <;> simp [omitProps, getProp, h]
  | cons p rest ih =>
    rw [omitProps]
    by_cases h1 : p.1 = k
    · subst h1
      cases h : keys.contains p.1 with
      | true =>
        simp [h, getProp, ih]
        simp at h
        intro hmem
        exact absurd h hmem
      | false => simp [h, getProp, ih]
    · cases h : keys.contains p.1 <;> simp [h, getProp, h1, ih]

theorem getPropD_setProp (P : Props) (k : String) (v : JSVal) (q : String) :
    getPropD (setProp P k v) q = if q = k then v else getPropD P q := by
  unfold getPropD
  rw [getProp_setProp]
  by_cases h : q = k <;> simp [h]

theorem getProp_filter_key (P : Props) (g : String → Bool) (k : String) :
    getProp (P.filter (fun p => g p.1)) k =
      if g k then getProp P k else none := by
  induction P with
  | nil => cases h : g k <;> simp [getProp, h]
  | cons p rest ih =>
    rw [List.filter_cons]
    by_cases h1 : p.1 = k
    · subst h1
      cases h : g p.1 <;> simp [h, getProp, ih]
    · cases h : g p.1 <;> simp [h, getProp, h1, ih]

/-- What the schema merge yields at each key: a defined supplied value
wins, an explicitly-undefined or missing field falls back to the
default (when one exists). -/
theorem getProp_mergedProps (raw : Props) (k : String) :
    getProp (mergedProps raw) k =
      match getProp raw k with
      | some v => some (if v.isUndefined then getPropD defaultProps k else v)
      | none => getProp defaultProps k := by
  rw [mergedProps, getProp_append]
  have hfn : ∀ p : String × JSVal,
      (if p.2.isUndefined then (p.1, getPropD defaultProps p.1) else p) =
      (p.1, if p.2.isUndefined then getPropD defaultProps p.1 else p.2) := by
    intro p
    by_cases h : p.2.isUndefined <;> simp [h]
  simp only [hfn]
  rw [getProp_map_key_preserving raw
    (fun s v => if v.isUndefined then getPropD defaultProps s else v) k]
  rw [getProp_filter_key defaultProps (fun s => !(hasKey raw s)) k]
  cases hraw : getProp raw k with
  | some v =>
    have hk : hasKey raw k = true := by rw [hasKey_eq_isSome, hraw]; rfl
    simp [hk]
  | none =>
    have hk : hasKey raw k = false := by rw [hasKey_eq_isSome, hraw]; rfl
    simp [hk]

/-! ## Stage characterization lemmas -/

theorem timingStep_fst (acc : Props × List Diagnostic) (prop : String) :
    (timingStep acc prop).1 =
      setProp acc.1 prop (coerceTimingValue prop (getPropD acc.1 prop)) := by
  rw [timingStep, coerceTimingValue]
  by_cases h : jsIsNaN (timingCoerce (getPropD acc.1 prop)) <;> simp [h]

theorem timingStep_snd (acc : Props × List Diagnostic) (prop : String) :
    (timingStep acc prop).2 = acc.2 ++ timingDiagsFor acc.1 prop := by
  rw [timingStep, timingDiagsFor]
  by_cases h : jsIsNaN (timingCoerce (getPropD acc.1 prop)) <;> simp [h]

theorem getProp_withChildrenArray (P : Props) (k : String) :
    getProp (withChildrenArray P) k =
      if k = "children" then
        some (JSVal.arr (childrenToArray (getPropD P "children")))
      else getProp P k := by
  rw [withChildrenArray, getProp_setProp]

theorem getPropD_withChildrenArray (P : Props) (k : String) :
    getPropD (withChildrenArray P) k =
      if k = "children" then JSVal.arr (childrenToArray (getPropD P "children"))
      else getPropD P k := by
  rw [withChildrenArray, getPropD_setProp]

theorem getProp_timingResult_fst (P : Props) (k : String) :
    getProp (timingResult P).1 k =
      if k = "staggerDelayBy" then some (coerceTimingValue k (getPropD P k))
      else if k = "staggerDurationBy" then some (coerceTimingValue k (getPropD P k))
      else if k = "delay" then some (coerceTimingValue k (getPropD P k))
      else if k = "duration" then some (coerceTimingValue k (getPropD P k))
      else getProp P k := by
  simp only [timingResult, timingPropNames, List.foldl_cons, List.foldl_nil,
    timingStep_fst, getProp_setProp, getPropD_setProp]
  split_ifs <;> simp_all

theorem getPropD_timingResult_fst (P : Props) (k : String) :
    getPropD (timingResult P).1 k =
      if k = "staggerDelayBy" then coerceTimingValue k (getPropD P k)
      else if k = "staggerDurationBy" then coerceTimingValue k (getPropD P k)
      else if k = "delay" then coerceTimingValue k (getPropD P k)
      else if k = "duration" then coerceTimingValue k (getPropD P k)
      else getPropD P k := by
  rw [getPropD, getProp_timingResult_fst]
  split_ifs <;> simp [getPropD]

theorem timingResult_snd (P : Props) :
    (timingResult P).2 =
      timingDiagsFor P "duration" ++ timingDiagsFor P "delay" ++
      timingDiagsFor P "staggerDurationBy" ++ timingDiagsFor P "staggerDelayBy" := by
  have hshift : ∀ (Q : Props) (s t : String) (v : JSVal), s ≠ t →
      timingDiagsFor (setProp Q s v) t = timingDiagsFor Q t := by
    intro Q s t v hst
    rw [timingDiagsFor, getPropD_setProp, if_neg (fun h : t = s => hst h.symm),
      timingDiagsFor]
  simp only [timingResult, timingPropNames, List.foldl_cons, List.foldl_nil,
    timingStep_fst, timingStep_snd]
  rw [hshift _ _ _ _ (by decide), hshift _ _ _ _ (by decide),
    hshift _ _ _ _ (by decide), hshift _ _ _ _ (by decide),
    hshift _ _ _ _ (by decide), hshift _ _ _ _ (by decide)]
  simp

theorem getProp_withAnimationProps (P : Props) (k : String) :
    getProp (withAnimationProps P) k =
      if k = "leaveClassName" then
        some (convertAnimationProp (getPropD P "leaveClassName"))
      else if k = "enterClassName" then
        some (convertAnimationProp (getPropD P "enterClassName"))
      else getProp P k := by
  simp only [withAnimationProps, getProp_setProp, getPropD_setProp]
  split_ifs <;> simp_all

/-- Pointwise view of the working copy after the animation-prop stage,
in terms of the original (post-merge) props. -/
theorem getProp_preShim (P : Props) (k : String) :
    getProp (withAnimationProps (timingResult (withChildrenArray P)).1) k =
      if k = "leaveClassName" then
        some (convertAnimationProp (getPropD P "leaveClassName"))
      else if k = "enterClassName" then
        some (convertAnimationProp (getPropD P "enterClassName"))
      else if k = "staggerDelayBy" then some (coerceTimingValue k (getPropD P k))
      else if k = "staggerDurationBy" then some (coerceTimingValue k (getPropD P k))
      else if k = "delay" then some (coerceTimingValue k (getPropD P k))
      else if k = "duration" then some (coerceTimingValue k (getPropD P k))
      else if k = "children" then
        some (JSVal.arr (childrenToArray (getPropD P "children")))
      else getProp P k := by
  simp only [getProp_withAnimationProps, getPropD_timingResult_fst,
    getProp_timingResult_fst, getPropD_withChildrenArray,
    getProp_withChildrenArray]
  split_ifs <;> simp_all

/-- Master pointwise characterization of convertProps. -/
theorem getProp_convertProps (P : Props) (k : String) :
    getProp (convertProps P).props k = canonValue P k := by
  simp only [convertProps]
  rw [getProp_setProp, getProp_omitProps, canonValue]
  by_cases h1 : k = "delegated"
  · rw [if_pos h1, if_pos h1]
  · rw [if_neg h1, if_neg h1]
    by_cases h2 : (keysOf (delegatedOf P)).contains k
    · rw [if_pos h2, if_pos h2]
    · rw [if_neg h2, if_neg h2, shimDisableAnimations]
      by_cases h3 : definedOn P "disableAnimations"
      · rw [if_pos h3, getProp_setProp, getProp_setProp]
        by_cases h4 : k = "disableAllAnimations"
        · simp [h4, h3]
        · by_cases h5 : k = "disableAnimations"
          · simp [h4, h5, h3]
          · simp [h4, h5, getProp_preShim]
      · rw [if_neg h3]
        simp [h3, getProp_preShim]

/-- Closed form for the diagnostics of convertProps. -/
theorem convertProps_diags (P : Props) :
    (convertProps P).diags =
      (if noStatelessOf P then [] else [Diagnostic.statelessWarning]) ++
      timingDiagsFor P "duration" ++ timingDiagsFor P "delay" ++
      timingDiagsFor P "staggerDurationBy" ++
      timingDiagsFor P "staggerDelayBy" ++
      (if definedOn P "disableAnimations" then
        [Diagnostic.deprecatedDisableAnimations] else []) := by
  have hshift : ∀ t, t ≠ "children" →
      timingDiagsFor (withChildrenArray P) t = timingDiagsFor P t := by
    intro t ht
    rw [timingDiagsFor, getPropD_withChildrenArray, if_neg ht, timingDiagsFor]
  simp only [convertProps, timingResult_snd]
  rw [hshift _ (by decide), hshift _ (by decide), hshift _ (by decide),
    hshift _ (by decide)]
  simp [List.append_assoc]

/-! ## Key-set lemmas for the delegated bag -/

theorem hasKey_setProp (P : Props) (k : String) (v : JSVal) (q : String) :
    hasKey (setProp P k v) q = if q = k then true else hasKey P q := by
  rw [hasKey_eq_isSome, getProp_setProp]
  by_cases h : q = k <;> simp [h, hasKey_eq_isSome]

theorem hasKey_omitProps (P : Props) (keys : List String) (k : String) :
    hasKey (omitProps P keys) k =
      if keys.contains k then false else hasKey P k := by
  rw [hasKey_eq_isSome, getProp_omitProps]
  by_cases h : keys.contains k
  · simp at h; simp [h, hasKey_eq_isSome]
  · simp at h; simp [h, hasKey_eq_isSome]

theorem keysOf_contains (P : Props) (k : String) :
    (keysOf P).contains k = hasKey P k := by
  induction P with
  | nil => rfl
  | cons p rest ih =>
    simp only [keysOf, List.map_cons, List.contains_cons, hasKey] at ih ⊢
    by_cases h : p.1 = k
    · subst h; simp
    · have hb : (k == p.1) = false := by
        simp
        exact fun hh => h hh.symm
      simp only [hb, Bool.false_or, if_neg h, ih]

/-- Which keys end up in the delegated bag: style (always forced) plus
every original key outside the recognized schema. -/
theorem contains_keysOf_delegatedOf (P : Props) (k : String) :
    (keysOf (delegatedOf P)).contains k =
      if k = "style" then true
      else if primaryPropKeys.contains k then false
      else hasKey P k := by
  simp only [delegatedOf]
  rw [keysOf_contains, hasKey_setProp]
  by_cases h1 : k = "style"
  · simp [h1]
  · rw [if_neg h1, if_neg h1, hasKey_omitProps]

/-! ## Auxiliary facts -/

/-- parseInt only ever yields NaN or an integer. -/
theorem parseIntBase10_int (s : String) :
    parseIntBase10 s = JSNum.nan ∨ (parseIntBase10 s).isInt = true := by
  simp only [parseIntBase10]
  split
  · exact Or.inl rfl
  · right
    simp only [JSNum.isInt]
    split <;> simp

theorem getProp_mergedProps_of_raw_some (raw : Props) (k : String) (w : JSVal)
    (hraw : getProp raw k = some w) :
    getProp (mergedProps raw) k =
      some (if w.isUndefined then getPropD defaultProps k else w) := by
  rw [getProp_mergedProps, hraw]

theorem getProp_mergedProps_of_raw_none (raw : Props) (k : String)
    (hraw : getProp raw k = none) :
    getProp (mergedProps raw) k = getProp defaultProps k := by
  rw [getProp_mergedProps, hraw]

/-- Every value in the default schema is defined (not undefined). -/
theorem defaultProps_defined (k : String) (v : JSVal)
    (h : getProp defaultProps k = some v) : v.isUndefined = false := by
  have hgen : ∀ P : Props, P.all (fun p => !(p.2.isUndefined)) = true →
      getProp P k = some v → v.isUndefined = false := by
    intro P hall hg
    induction P with
    | nil => exact Option.noConfusion hg
    | cons p rest ih =>
      rw [List.all_cons, Bool.and_eq_true] at hall
      rw [getProp] at hg
      by_cases hk : p.1 = k
      · rw [if_pos hk] at hg
        cases hg
        simpa using hall.1
      · rw [if_neg hk] at hg
        exact ih hall.2 hg
  exact hgen defaultProps (by rfl) h

/-- If the schema merge stores an undefined value at a key, that key
has no (defined) schema default. -/
theorem merged_undef_default (raw : Props) (k : String) (v : JSVal)
    (h : getProp (mergedProps raw) k = some v) (hu : v.isUndefined = true) :
    getPropD defaultProps k = JSVal.undef := by
  cases hraw : getProp raw k with
  | some w =>
    rw [getProp_mergedProps_of_raw_some raw k w hraw] at h
    cases h
    cases hw : w.isUndefined with
    | true =>
      rw [hw] at hu
      simp at hu
      cases hq : getPropD defaultProps k <;> simp_all [JSVal.isUndefined]
    | false =>
      rw [hw] at hu
      simp at hu
      rw [hw] at hu
      exact Bool.noConfusion hu
  | none =>
    rw [getProp_mergedProps_of_raw_none raw k hraw] at h
    have := defaultProps_defined k v h
    rw [this] at hu
    cases hu

theorem convertAnimationProp_isFunction (v : JSVal) :
    (convertAnimationProp v).isFunction = true := by
  cases v <;> rfl

theorem convertAnimationProp_of_isFunction (v : JSVal)
    (h : v.isFunction = true) : convertAnimationProp v = v := by
  cases v <;> first | rfl | simp_all [JSVal.isFunction]

theorem convertAnimationProp_idem (v : JSVal) :
    convertAnimationProp (convertAnimationProp v) = convertAnimationProp v :=
  convertAnimationProp_of_isFunction _ (convertAnimationProp_isFunction v)

theorem timingCoerce_not_string (v : JSVal) (h : v.isString = false) :
    timingCoerce v = v := by
  cases v <;> simp_all [JSVal.isString, timingCoerce]

theorem timingCoerce_result_not_string (v : JSVal) :
    (timingCoerce v).isString = false := by
  cases v <;> simp [timingCoerce, JSVal.isString]

theorem coerceTimingValue_idem (f : String) (v : JSVal)
    (hdflt : jsIsNaN (getPropD defaultProps f) = false)
    (hdefs : (getPropD defaultProps f).isString = false) :
    coerceTimingValue f (coerceTimingValue f v) = coerceTimingValue f v := by
  cases h : jsIsNaN (timingCoerce v) with
  | true =>
    have hv : coerceTimingValue f v = getPropD defaultProps f := by
      rw [coerceTimingValue, if_pos h]
    rw [hv, coerceTimingValue, timingCoerce_not_string _ hdefs, hdflt]
    simp
  | false =>
    have hv : coerceTimingValue f v = timingCoerce v := by
      rw [coerceTimingValue, h]
      simp
    rw [hv, coerceTimingValue,
      timingCoerce_not_string _ (timingCoerce_result_not_string v), h]
    simp

theorem coerceTimingValue_not_undefined (f : String) (v : JSVal)
    (hdflt : (getPropD defaultProps f).isUndefined = false) :
    (coerceTimingValue f v).isUndefined = false := by
  rw [coerceTimingValue]
  by_cases h : jsIsNaN (timingCoerce v) = true
  · rw [if_pos h]; exact hdflt
  · rw [if_neg h]
    cases hv : timingCoerce v <;> simp_all [jsIsNaN, JSVal.isUndefined]

/-! ## Children flattening facts -/

mutual

theorem childrenToArray_flat (v : JSVal) :
    (childrenToArray v).all isFlatChild = true := by
  cases v with
  | arr xs => rw [childrenToArray]; exact childrenToArrayList_flat xs
  | undef => rfl
  | null => rfl
  | bool b => rfl
  | num n => rfl
  | str s => rfl
  | func id => rfl
  | elem id key sfc => rfl
  | closureConst w => rfl
  | obj fields => rfl

theorem childrenToArrayList_flat (l : List JSVal) :
    (childrenToArrayList l).all isFlatChild = true := by
  cases l with
  | nil => rfl
  | cons x xs =>
    rw [childrenToArrayList, List.all_append, childrenToArray_flat x,
      childrenToArrayList_flat xs]
    rfl

end

theorem childrenToArray_flatChild (v : JSVal) (h : isFlatChild v = true) :
    childrenToArray v = [v] := by
  cases v <;> simp_all [isFlatChild, childrenToArray]

theorem childrenToArrayList_flat_id (l : List JSVal)
    (h : l.all isFlatChild = true) : childrenToArrayList l = l := by
  induction l with
  | nil => rfl
  | cons x xs ih =>
    rw [List.all_cons, Bool.and_eq_true] at h
    rw [childrenToArrayList, childrenToArray_flatChild x h.1, ih h.2]
    rfl

theorem childrenToArray_idem (v : JSVal) :
    childrenToArray (JSVal.arr (childrenToArray v)) = childrenToArray v := by
  rw [childrenToArray]
  exact childrenToArrayList_flat_id _ (childrenToArray_flat v)

/-! ## Spread-merge facts -/

theorem getProp_objSpread (base extra : Props) (k : String)
    (hnd : (keysOf extra).Nodup) :
    getProp (objSpread base extra) k =
      match getProp extra k with
      | some v => some v
      | none => getProp base k := by
  induction extra generalizing base with
  | nil => simp [objSpread, getProp]
  | cons p rest ih =>
    rw [keysOf, List.map_cons, List.nodup_cons] at hnd
    have hstep : objSpread base (p :: rest)
        = objSpread (setProp base p.1 p.2) rest := by
      rw [objSpread, List.foldl_cons, objSpread]
    rw [hstep, ih (setProp base p.1 p.2) hnd.2]
    by_cases h : p.1 = k
    · subst h
      have hnone : getProp rest p.1 = none := by
        have : hasKey rest p.1 = false := by
          rw [← keysOf_contains]
          cases hc : (keysOf rest).contains p.1
          · rfl
          · simp at hc; exact absurd hc hnd.1
        rw [hasKey_eq_isSome] at this
        cases hg : getProp rest p.1 <;> simp [hg] at this ⊢
      rw [hnone, getProp, if_pos rfl, getProp_setProp, if_pos rfl]
    · rw [getProp, if_neg h]
      cases hg : getProp rest k with
      | some w => rfl
      | none => rw [getProp_setProp, if_neg (fun hh => h hh.symm)]

/-! ## Counting helpers for the diagnostics list -/

theorem countP_timingDiagsFor_ne (P : Props) (t f : String) (hne : t ≠ f) :
    (timingDiagsFor P t).countP (Diagnostic.isInvalidTimingFor f) = 0 := by
  rw [timingDiagsFor]
  split <;> simp [Diagnostic.isInvalidTimingFor, hne]

theorem countP_timingDiagsFor_self (P : Props) (f : String) :
    (timingDiagsFor P f).countP (Diagnostic.isInvalidTimingFor f)
      = if jsIsNaN (timingCoerce (getPropD P f)) then 1 else 0 := by
  rw [timingDiagsFor]
  split <;> simp_all [Diagnostic.isInvalidTimingFor]

theorem mem_timingDiagsFor_self (P : Props) (f : String)
    (h : jsIsNaN (timingCoerce (getPropD P f)) = true) :
    Diagnostic.invalidTiming f (timingCoerce (getPropD P f))
      (getPropD defaultProps f) ∈ timingDiagsFor P f := by
  rw [timingDiagsFor, h]
  simp

/-- The count of invalid-timing diagnostics for one field, over the
whole diagnostics output. -/
theorem countP_invalidTiming_diags (raw : Props) (f : String)
    (hf : f ∈ timingPropNames) :
    (normalize raw).diags.countP (Diagnostic.isInvalidTimingFor f) =
      if jsIsNaN (timingCoerce (getPropD (mergedProps raw) f)) then 1 else 0 := by
  rw [normalize, convertProps_diags]
  simp only [List.countP_append]
  have hstateless :
      (if noStatelessOf (mergedProps raw) then ([] : List Diagnostic)
        else [Diagnostic.statelessWarning]).countP
        (Diagnostic.isInvalidTimingFor f) = 0 := by
    split <;> rfl
  have hdep :
      (if definedOn (mergedProps raw) "disableAnimations" then
        [Diagnostic.deprecatedDisableAnimations]
        else ([] : List Diagnostic)).countP
        (Diagnostic.isInvalidTimingFor f) = 0 := by
    split <;> rfl
  fin_cases hf <;>
    rw [hstateless, hdep, countP_timingDiagsFor_self,
      countP_timingDiagsFor_ne _ _ _ (by decide),
      countP_timingDiagsFor_ne _ _ _ (by decide),
      countP_timingDiagsFor_ne _ _ _ (by decide)] <;>
    simp

/-- The canonical value of each timing field is the coerced value. -/
theorem getProp_normalize_timing (raw : Props) (f : String)
    (hf : f ∈ timingPropNames) :
    getProp (normalize raw).props f
      = some (coerceTimingValue f (getPropD (mergedProps raw) f)) := by
  have h1 : "duration" ∈ primaryPropKeys := by decide
  have h2 : "delay" ∈ primaryPropKeys := by decide
  have h3 : "staggerDurationBy" ∈ primaryPropKeys := by decide
  have h4 : "staggerDelayBy" ∈ primaryPropKeys := by decide
  fin_cases hf <;>
    (rw [normalize, getProp_convertProps, canonValue,
      contains_keysOf_delegatedOf]
     simp [h1, h2, h3, h4])

/-! ## Claim C1 -/

/-- C1 (confirmed): for each of the four timing fields, a string raw
value is parsed as a base-10 integer and any other value is used as-is;
whenever the resulting value is NaN, exactly one diagnostic naming the
field, the invalid (post-parse) value and the field's own schema
default is emitted and the field's own default is substituted; every
non-NaN result is stored unchanged as the canonical value. -/
theorem c1_timing_field_coercion (raw : Props) (f : String)
    (hf : f ∈ timingPropNames) : TimingFieldClaim raw f := by
  simp only [TimingFieldClaim]
  refine ⟨fun hnan => ⟨?_, ?_⟩, fun hnan => ⟨?_, ?_, ?_⟩,
    fun s hs => by rw [hs]; rfl, fun hns => timingCoerce_not_string _ hns⟩
  · rw [getProp_normalize_timing raw f hf, coerceTimingValue, hnan]
    simp
  · rw [countP_invalidTiming_diags raw f hf, hnan]
    simp
  · rw [getProp_normalize_timing raw f hf, coerceTimingValue, hnan]
    simp
  · rw [countP_invalidTiming_diags raw f hf, hnan]
    simp
  · rw [normalize, convertProps_diags]
    have hmem := mem_timingDiagsFor_self (mergedProps raw) f hnan
    simp only [List.mem_append]
    fin_cases hf
    · exact Or.inl (Or.inl (Or.inl (Or.inl (Or.inr hmem))))
    · exact Or.inl (Or.inl (Or.inl (Or.inr hmem)))
    · exact Or.inl (Or.inl (Or.inr hmem))
    · exact Or.inl (Or.inr hmem)

/-- Witness for C1 at a concrete input: duration supplied as the
string "500". -/
theorem c1_timing_field_coercion_witness :
    "duration" ∈ timingPropNames ∧
    TimingFieldClaim [("duration", JSVal.str "500")] "duration" :=
  ⟨by decide, c1_timing_field_coercion [("duration", JSVal.str "500")]
    "duration" (by decide)⟩

/-! ## Claim C2 -/

/-- C2 counterexample: supplying duration as the plain (non-string)
number 3.5 yields a canonical duration of 3.5, which is not an
integer — isNaN(3.5) is false, so the value passes through without any
integer coercion, refuting the claim that the canonical timing fields
are always integers for arbitrary non-string numbers. -/
theorem c2_counterexample :
    getProp (normalize [("duration", JSVal.num (JSNum.finite (Rat.mk' 7 2)))]).props
        "duration" = some (JSVal.num (JSNum.finite (Rat.mk' 7 2))) ∧
    JSNum.isInt (JSNum.finite (Rat.mk' 7 2)) = false :=
  ⟨rfl, by decide⟩

/-- C2 (corrected): for raw timing values that are strings or numbers,
the canonical value is a number and never NaN; values supplied as
strings, and a NaN supplied directly, always yield integers; but any
other number (e.g. 3.5 or Infinity) passes through unchanged, so the
canonical value is an integer only when the supplied number was. -/
theorem c2_timing_output (raw : Props) (f : String)
    (hf : f ∈ timingPropNames)
    (hv : (getPropD (mergedProps raw) f).isString = true ∨
      (getPropD (mergedProps raw) f).isNumber = true) :
    TimingOutputClaim raw f := by
  obtain ⟨dm, hdm, hdmn, hdmi⟩ : ∃ m : JSNum,
      getPropD defaultProps f = JSVal.num m ∧ m ≠ JSNum.nan ∧ m.isInt = true := by
    fin_cases hf
    · exact ⟨JSNum.finite 350, rfl, by decide, by decide⟩
    · exact ⟨JSNum.finite 0, rfl, by decide, by decide⟩
    · exact ⟨JSNum.finite 0, rfl, by decide, by decide⟩
    · exact ⟨JSNum.finite 0, rfl, by decide, by decide⟩
  have hval := getProp_normalize_timing raw f hf
  simp only [TimingOutputClaim]
  cases hraw : getPropD (mergedProps raw) f
  case str s =>
    rw [hraw] at hval
    rcases parseIntBase10_int s with hp | hp
    · have hc : coerceTimingValue f (JSVal.str s) = JSVal.num dm := by
        rw [coerceTimingValue]
        simp [timingCoerce, hp, jsIsNaN, hdm]
      exact ⟨dm, by rw [hval, hc], hdmn, fun _ => hdmi,
        fun h => JSVal.noConfusion h, fun m hm _ => JSVal.noConfusion hm⟩
    · have hne : parseIntBase10 s ≠ JSNum.nan := by
        intro h
        rw [h] at hp
        exact Bool.noConfusion hp
      have hc : coerceTimingValue f (JSVal.str s)
          = JSVal.num (parseIntBase10 s) := by
        rw [coerceTimingValue]
        simp [timingCoerce, jsIsNaN, hne]
      exact ⟨parseIntBase10 s, by rw [hval, hc], hne, fun _ => hp,
        fun h => JSVal.noConfusion h, fun m hm _ => JSVal.noConfusion hm⟩
  case num m =>
    rw [hraw] at hval
    by_cases hmn : m = JSNum.nan
    · subst hmn
      have hc : coerceTimingValue f (JSVal.num JSNum.nan) = JSVal.num dm := by
        rw [coerceTimingValue]
        simp [timingCoerce, jsIsNaN, hdm]
      refine ⟨dm, by rw [hval, hc], hdmn, fun his => Bool.noConfusion his,
        fun _ => hdmi, fun m' hm' hm'ne => ?_⟩
      exact absurd (JSVal.num.inj hm').symm hm'ne
    · have hc : coerceTimingValue f (JSVal.num m) = JSVal.num m := by
        rw [coerceTimingValue]
        simp [timingCoerce, jsIsNaN, hmn]
      refine ⟨m, by rw [hval, hc], hmn, fun his => Bool.noConfusion his,
        fun heq => absurd (JSVal.num.inj heq) hmn,
        fun m' hm' _ => JSVal.num.inj hm'⟩
  all_goals
    rw [hraw] at hv
    simp [JSVal.isString, JSVal.isNumber] at hv

/-! ## Claim C3 -/

/-- disableAnimations has no schema default, so the schema merge leaves
its definedness unchanged. -/
theorem definedOn_merged_da (raw : Props) :
    definedOn (mergedProps raw) "disableAnimations"
      = definedOn raw "disableAnimations" := by
  rw [definedOn, definedOn, getPropD, getPropD]
  cases hraw : getProp raw "disableAnimations" with
  | some w =>
    rw [getProp_mergedProps_of_raw_some _ _ _ hraw]
    cases hw : w.isUndefined with
    | true =>
      have hdd : getPropD defaultProps "disableAnimations" = JSVal.undef := rfl
      have hu : JSVal.undef.isUndefined = true := rfl
      simp [hdd, hw, hu]
    | false => simp [hw]
  | none =>
    rw [getProp_mergedProps_of_raw_none _ _ hraw]
    rfl

/-- disableAnimations has no schema default, so the schema merge leaves
its value unchanged. -/
theorem getPropD_merged_da (raw : Props) :
    getPropD (mergedProps raw) "disableAnimations"
      = getPropD raw "disableAnimations" := by
  rw [getPropD, getPropD]
  cases hraw : getProp raw "disableAnimations" with
  | some w =>
    rw [getProp_mergedProps_of_raw_some _ _ _ hraw]
    cases hw : w.isUndefined with
    | true =>
      have hdd : getPropD defaultProps "disableAnimations" = JSVal.undef := rfl
      cases w <;> simp_all [JSVal.isUndefined, hdd]
    | false => simp [hw]
  | none =>
    rw [getProp_mergedProps_of_raw_none _ _ hraw]
    rfl

/-- The count of deprecation diagnostics over the whole output. -/
theorem countP_deprecation_diags (raw : Props) :
    (normalize raw).diags.countP Diagnostic.isDeprecation
      = if definedOn (mergedProps raw) "disableAnimations" then 1 else 0 := by
  rw [normalize, convertProps_diags]
  simp only [List.countP_append]
  have h1 : ∀ t, (timingDiagsFor (mergedProps raw) t).countP
      Diagnostic.isDeprecation = 0 := by
    intro t
    rw [timingDiagsFor]
    split <;> rfl
  rw [h1, h1, h1, h1]
  have h2 : (if noStatelessOf (mergedProps raw) then ([] : List Diagnostic)
      else [Diagnostic.statelessWarning]).countP Diagnostic.isDeprecation = 0 := by
    split <;> rfl
  rw [h2]
  split <;> simp [Diagnostic.isDeprecation]

/-- C3 counterexample: a raw input whose disableAnimations field is
present but holds the value undefined.  The field is present on the raw
input, yet the code's typeof check treats it as absent: no deprecation
diagnostic is emitted, refuting the claim that presence with any value
triggers the shim. -/
theorem c3_counterexample :
    hasKey [("disableAnimations", JSVal.undef)] "disableAnimations" = true ∧
    (normalize [("disableAnimations", JSVal.undef)]).diags.countP
      Diagnostic.isDeprecation = 0 :=
  ⟨rfl, rfl⟩

/-- C3 (corrected): the deprecation shim fires exactly when the legacy
field is present with a defined (non-undefined) value — including
false — emitting exactly one deprecation diagnostic, copying the value
onto disableAllAnimations (overwriting the schema default) and removing
disableAnimations from the canonical output; when the field is absent
or explicitly undefined, nothing happens and disableAllAnimations keeps
its schema-merged value. -/
theorem c3_disable_animations_shim (raw : Props) : DisableAnimShimClaim raw := by
  simp only [DisableAnimShimClaim]
  have hda := definedOn_merged_da raw
  have hprim : "disableAllAnimations" ∈ primaryPropKeys := by decide
  have hnp : "disableAnimations" ∉ primaryPropKeys := by decide
  constructor
  · intro hdflt
    refine ⟨?_, ?_, ?_⟩
    · rw [countP_deprecation_diags, hda, hdflt]
      rfl
    · rw [normalize, getProp_convertProps, canonValue,
        contains_keysOf_delegatedOf]
      simp [hprim, hda, hdflt, getPropD_merged_da]
    · rw [normalize, getProp_convertProps, canonValue,
        contains_keysOf_delegatedOf]
      have hk : hasKey (mergedProps raw) "disableAnimations" = true := by
        rw [hasKey_eq_isSome]
        cases hraw : getProp raw "disableAnimations" with
        | some w => rw [getProp_mergedProps_of_raw_some _ _ _ hraw]; rfl
        | none =>
          rw [definedOn, getPropD, hraw] at hdflt
          simp [JSVal.isUndefined] at hdflt
      simp [hnp, hk]
  · intro hdflt
    constructor
    · rw [countP_deprecation_diags, hda, hdflt]
      rfl
    · rw [normalize, getProp_convertProps, canonValue,
        contains_keysOf_delegatedOf]
      simp [hprim, hda, hdflt]

/-- Witness for the amended C2 at a concrete input: duration supplied
as the string "42". -/
theorem c2_timing_output_witness :
    ("duration" ∈ timingPropNames ∧
      ((getPropD (mergedProps [("duration", JSVal.str "42")]) "duration").isString
          = true ∨
        (getPropD (mergedProps [("duration", JSVal.str "42")]) "duration").isNumber
          = true)) ∧
    TimingOutputClaim [("duration", JSVal.str "42")] "duration" :=
  ⟨⟨by decide, Or.inl (by rfl)⟩,
    c2_timing_output [("duration", JSVal.str "42")] "duration" (by decide)
      (Or.inl (by rfl))⟩

/-! ## Claim C4 -/

theorem getProp_normalize_delegated (raw : Props) :
    getProp (normalize raw).props "delegated"
      = some (JSVal.obj (delegatedOf (mergedProps raw))) := by
  rw [normalize, getProp_convertProps, canonValue]
  simp

theorem isUndef_eq (v : JSVal) (h : v.isUndefined = true) : v = JSVal.undef := by
  cases v <;> simp_all [JSVal.isUndefined]

theorem getProp_defaults_none_of_nonprimary (k : String)
    (hk : k ∉ primaryPropKeys) : getProp defaultProps k = none := by
  have hsub : ∀ x ∈ keysOf defaultProps, x ∈ primaryPropKeys := by decide
  cases hg : getProp defaultProps k with
  | none => rfl
  | some v =>
    have hh : hasKey defaultProps k = true := by rw [hasKey_eq_isSome, hg]; rfl
    rw [← keysOf_contains] at hh
    simp at hh
    exact absurd (hsub k hh) hk

/-- On keys outside the recognized schema the merge is the identity. -/
theorem getProp_merged_nonprimary (raw : Props) (k : String)
    (hk : k ∉ primaryPropKeys) : getProp (mergedProps raw) k = getProp raw k := by
  cases hraw : getProp raw k with
  | some v =>
    rw [getProp_mergedProps_of_raw_some _ _ _ hraw]
    cases hv : v.isUndefined with
    | true =>
      rw [isUndef_eq v hv]
      rw [isUndef_eq v hv] at hraw
      simp [getPropD, getProp_defaults_none_of_nonprimary k hk]
    | false => simp [hv]
  | none =>
    rw [getProp_mergedProps_of_raw_none _ _ hraw,
      getProp_defaults_none_of_nonprimary k hk]

/-- C4 (confirmed): the delegated bag carries the caller style merged
over position: relative (caller keys win), every non-schema caller
field with its original value, and those fields vanish from the
top level of the canonical output. -/
theorem c4_delegated_style (raw : Props)
    (hstyle : getProp raw "style" = none ∨
      ∃ fields : Props, getProp raw "style" = some (JSVal.obj fields) ∧
        (keysOf fields).Nodup) :
    DelegatedStyleClaim raw := by
  have hsty_np : "style" ∉ primaryPropKeys := by decide
  have hmergedstyle : getProp (mergedProps raw) "style" = getProp raw "style" :=
    getProp_merged_nonprimary raw "style" hsty_np
  have hsv : getPropD (omitProps (mergedProps raw) primaryPropKeys) "style"
      = getPropD raw "style" := by
    rw [getPropD, getProp_omitProps,
      show primaryPropKeys.contains "style" = false from by decide]
    simp [hmergedstyle, getPropD]
  refine ⟨delegatedOf (mergedProps raw), getProp_normalize_delegated raw,
    ⟨objSpread [("position", JSVal.str "relative")]
      (spreadEntries (getPropD (omitProps (mergedProps raw) primaryPropKeys)
        "style")), ?_, ?_⟩, ?_, ?_⟩
  · simp only [delegatedOf]
    rw [getProp_setProp, if_pos rfl]
    rfl
  · intro k
    rcases hstyle with hnone | ⟨fields, hf, hnd⟩
    · have hsv2 : getPropD raw "style" = JSVal.undef := by
        rw [getPropD, hnone]
        rfl
      rw [hsv, hsv2, hnone]
      show getProp [("position", JSVal.str "relative")] k = _
      by_cases hp : k = "position"
      · subst hp
        simp [getProp]
      · have hps : ("position" : String) ≠ k := fun h => hp h.symm
        simp [getProp, hp, hps]
    · have hsv2 : getPropD raw "style" = JSVal.obj fields := by
        rw [getPropD, hf]
        rfl
      rw [hsv, hsv2, hf]
      show getProp (objSpread [("position", JSVal.str "relative")] fields) k =
        (match getProp fields k with
         | some v => some v
         | none => if k = "position" then some (JSVal.str "relative") else none)
      rw [getProp_objSpread _ _ _ hnd]
      cases hfk : getProp fields k with
      | some v => rfl
      | none =>
        show getProp [("position", JSVal.str "relative")] k = _
        by_cases hp : k = "position"
        · subst hp
          simp [getProp]
        · have hps : ("position" : String) ≠ k := fun h => hp h.symm
          simp [getProp, hp, hps]
  · intro k hknp hks
    have hknpm : k ∉ primaryPropKeys := by simpa using hknp
    simp only [delegatedOf]
    rw [getProp_setProp, if_neg hks, getProp_omitProps, hknp]
    simp only [Bool.false_eq_true, if_false]
    exact getProp_merged_nonprimary raw k hknpm
  · intro k hknp hks hkd
    have hknpm : k ∉ primaryPropKeys := by simpa using hknp
    rw [normalize, getProp_convertProps, canonValue, contains_keysOf_delegatedOf]
    have h1 : k ≠ "disableAllAnimations" :=
      fun h => hknpm (h ▸ (by decide : "disableAllAnimations" ∈ primaryPropKeys))
    have h2 : k ≠ "leaveClassName" :=
      fun h => hknpm (h ▸ (by decide : "leaveClassName" ∈ primaryPropKeys))
    have h3 : k ≠ "enterClassName" :=
      fun h => hknpm (h ▸ (by decide : "enterClassName" ∈ primaryPropKeys))
    have h4 : k ≠ "staggerDelayBy" :=
      fun h => hknpm (h ▸ (by decide : "staggerDelayBy" ∈ primaryPropKeys))
    have h5 : k ≠ "staggerDurationBy" :=
      fun h => hknpm (h ▸ (by decide : "staggerDurationBy" ∈ primaryPropKeys))
    have h6 : k ≠ "delay" :=
      fun h => hknpm (h ▸ (by decide : "delay" ∈ primaryPropKeys))
    have h7 : k ≠ "duration" :=
      fun h => hknpm (h ▸ (by decide : "duration" ∈ primaryPropKeys))
    have h8 : k ≠ "children" :=
      fun h => hknpm (h ▸ (by decide : "children" ∈ primaryPropKeys))
    by_cases hk : hasKey (mergedProps raw) k
    · simp [hkd, hks, hknp, hknpm, hk]
    · have hkf : hasKey (mergedProps raw) k = false := by
        cases hh : hasKey (mergedProps raw) k
        · rfl
        · exact absurd hh hk
      have hgm : getProp (mergedProps raw) k = none := by
        rw [hasKey_eq_isSome] at hkf
        cases hg : getProp (mergedProps raw) k
        · rfl
        · rw [hg] at hkf
          exact Bool.noConfusion hkf
      by_cases hda : k = "disableAnimations"
      · subst hda
        have hdd : definedOn (mergedProps raw) "disableAnimations" = false := by
          rw [definedOn, getPropD, hgm]
          rfl
        simp [hkf, hgm, hdd]
      · simp [hkd, hks, hknp, hknpm, hkf, hda, h1, h2, h3, h4, h5, h6, h7,
          h8, hgm]

/-- Witness for C4 at the spec example input. -/
theorem c4_delegated_style_witness :
    (getProp [("foo", JSVal.num (JSNum.finite 1)),
        ("style", JSVal.obj [("color", JSVal.str "red")]),
        ("maintainContainerHeight", JSVal.bool false)] "style" = none ∨
      ∃ fields : Props,
        getProp [("foo", JSVal.num (JSNum.finite 1)),
          ("style", JSVal.obj [("color", JSVal.str "red")]),
          ("maintainContainerHeight", JSVal.bool false)] "style"
            = some (JSVal.obj fields) ∧
        (keysOf fields).Nodup) ∧
    DelegatedStyleClaim [("foo", JSVal.num (JSNum.finite 1)),
      ("style", JSVal.obj [("color", JSVal.str "red")]),
      ("maintainContainerHeight", JSVal.bool false)] :=
  ⟨Or.inr ⟨[("color", JSVal.str "red")], rfl, by decide⟩,
    c4_delegated_style _
      (Or.inr ⟨[("color", JSVal.str "red")], rfl, by decide⟩)⟩

/-! ## Claim C5 -/

/-- C5 counterexample: a caller-supplied non-schema field named
delegated.  The key delegated is then present both at the top level of
the canonical output (as the delegated bag itself) and inside the bag
(holding the caller value), so the two key-sets are not disjoint. -/
theorem c5_counterexample :
    hasKey (normalize [("delegated", JSVal.bool true)]).props "delegated" = true ∧
    ∃ d : Props,
      getProp (normalize [("delegated", JSVal.bool true)]).props "delegated"
        = some (JSVal.obj d) ∧ hasKey d "delegated" = true :=
  ⟨rfl, ⟨[("delegated", JSVal.bool true),
    ("style", JSVal.obj [("position", JSVal.str "relative")])], rfl, rfl⟩⟩

/-- C5 (corrected): the delegated bag keys and the canonical top-level
keys are disjoint except for the key delegated itself, which a caller
can force into the bag by supplying a non-schema field of that name. -/
theorem c5_key_disjointness (raw : Props) (k : String) (d : Props)
    (hd : getProp (normalize raw).props "delegated" = some (JSVal.obj d))
    (htop : hasKey (normalize raw).props k = true)
    (hbag : hasKey d k = true) : k = "delegated" := by
  by_contra hkd
  have hdel := getProp_normalize_delegated raw
  rw [hdel] at hd
  have hdeq : delegatedOf (mergedProps raw) = d :=
    JSVal.obj.inj (Option.some.inj hd)
  rw [← hdeq, ← keysOf_contains] at hbag
  rw [hasKey_eq_isSome, normalize, getProp_convertProps, canonValue,
    if_neg hkd, if_pos hbag] at htop
  simp at htop

/-- Witness for the amended C5: the hypotheses hold at the
delegated-field input, where the shared key is indeed delegated. -/
theorem c5_key_disjointness_witness :
    (getProp (normalize [("delegated", JSVal.num (JSNum.finite 1))]).props
        "delegated"
      = some (JSVal.obj [("delegated", JSVal.num (JSNum.finite 1)),
          ("style", JSVal.obj [("position", JSVal.str "relative")])]) ∧
     hasKey (normalize [("delegated", JSVal.num (JSNum.finite 1))]).props
        "delegated" = true ∧
     hasKey [("delegated", JSVal.num (JSNum.finite 1)),
        ("style", JSVal.obj [("position", JSVal.str "relative")])]
        "delegated" = true) ∧
    "delegated" = "delegated" :=
  ⟨⟨rfl, rfl, rfl⟩,
    c5_key_disjointness [("delegated", JSVal.num (JSNum.finite 1))] "delegated"
      [("delegated", JSVal.num (JSNum.finite 1)),
       ("style", JSVal.obj [("position", JSVal.str "relative")])] rfl rfl rfl⟩

/-! ## Claim C6 -/

theorem getProp_normalize_anim (raw : Props) (field : String)
    (hf : field = "enterClassName" ∨ field = "leaveClassName") :
    getProp (normalize raw).props field
      = some (convertAnimationProp (getPropD (mergedProps raw) field)) := by
  have he : ("enterClassName" : String) ∈ primaryPropKeys := by decide
  have hl : ("leaveClassName" : String) ∈ primaryPropKeys := by decide
  rcases hf with rfl | rfl <;>
    (rw [normalize, getProp_convertProps, canonValue,
      contains_keysOf_delegatedOf]
     simp [he, hl])

/-- C6 (confirmed): each animation field independently passes callables
through identically and wraps every other value in a zero-argument
callable returning exactly that value. -/
theorem c6_animation_prop (raw : Props) (field : String)
    (hf : field = "enterClassName" ∨ field = "leaveClassName") :
    AnimPropClaim raw field := by
  simp only [AnimPropClaim]
  refine ⟨convertAnimationProp (getPropD (mergedProps raw) field),
    getProp_normalize_anim raw field hf, rfl,
    fun h => convertAnimationProp_of_isFunction _ h, fun h => ?_, ?_⟩
  · constructor
    · exact convertAnimationProp_isFunction _
    · simp [convertAnimationProp, h, JSVal.call0]
  · intro v hv hvu
    rw [getPropD, getProp_mergedProps_of_raw_some _ _ _ hv]
    simp [hvu]

/-- Witness for C6 at the spec example input: a shape object supplied
for enterClassName. -/
theorem c6_animation_prop_witness :
    (("enterClassName" : String) = "enterClassName" ∨
      ("enterClassName" : String) = "leaveClassName") ∧
    AnimPropClaim [("enterClassName",
        JSVal.obj [("from", JSVal.str "a"), ("to", JSVal.str "b")])]
      "enterClassName" :=
  ⟨Or.inl rfl,
    c6_animation_prop [("enterClassName",
        JSVal.obj [("from", JSVal.str "a"), ("to", JSVal.str "b")])]
      "enterClassName" (Or.inl rfl)⟩

/-! ## Claim C7 -/

theorem getProp_normalize_children (raw : Props) :
    getProp (normalize raw).props "children"
      = some (JSVal.arr (childrenToArray
          (getPropD (mergedProps raw) "children"))) := by
  have hc : ("children" : String) ∈ primaryPropKeys := by decide
  rw [normalize, getProp_convertProps, canonValue, contains_keysOf_delegatedOf]
  simp [hc]

/-- C7 (confirmed): the children canonicalizer always succeeds and
always stores a flat sequence (never a bare element, never absent): the
canonical children of any input is the array of the flattened children,
a single supplied element becomes a one-element sequence, and absent or
undefined children become the empty sequence. -/
theorem c7_children_canonicalizer (raw : Props) (id : Nat)
    (key : Option String) (sfc : Bool) :
    (∃ l : List JSVal, getProp (normalize raw).props "children"
        = some (JSVal.arr l) ∧ l.all isFlatChild = true) ∧
    getProp (normalize raw).props "children"
      = some (JSVal.arr (childrenToArray
          (getPropD (mergedProps raw) "children"))) ∧
    getProp (normalize [("children", JSVal.elem id key sfc)]).props "children"
      = some (JSVal.arr [JSVal.elem id key sfc]) ∧
    getProp (normalize [("children", JSVal.undef)]).props "children"
      = some (JSVal.arr []) ∧
    getProp (normalize []).props "children" = some (JSVal.arr []) := by
  refine ⟨⟨_, getProp_normalize_children raw, childrenToArray_flat _⟩,
    getProp_normalize_children raw, ?_, rfl, rfl⟩
  rw [getProp_normalize_children]
  have hmc : getPropD (mergedProps [("children", JSVal.elem id key sfc)])
      "children" = JSVal.elem id key sfc := rfl
  rw [hmc]
  rfl

/-! ## Claim C8 -/

theorem all_ok_eq_not_any_bad (l : List JSVal) :
    l.all (fun c => !isElementAnSFC c || childKeyIsUndefined c)
      = !(l.any (fun c => isElementAnSFC c && !childKeyIsUndefined c)) := by
  induction l with
  | nil => rfl
  | cons x xs ih =>
    simp only [List.all_cons, List.any_cons, ih]
    cases isElementAnSFC x <;> cases childKeyIsUndefined x <;>
      cases xs.any (fun c => isElementAnSFC c && !childKeyIsUndefined c) <;> rfl

theorem noStatelessOf_eq (P : Props) : noStatelessOf P = !(badChildOf P) := by
  rw [noStatelessOf, badChildOf]
  exact all_ok_eq_not_any_bad _

theorem countP_stateless_diags (raw : Props) :
    (normalize raw).diags.countP Diagnostic.isStatelessWarn
      = if badChildOf (mergedProps raw) then 1 else 0 := by
  rw [normalize, convertProps_diags]
  simp only [List.countP_append]
  have h1 : ∀ t, (timingDiagsFor (mergedProps raw) t).countP
      Diagnostic.isStatelessWarn = 0 := by
    intro t
    rw [timingDiagsFor]
    split <;> rfl
  rw [h1, h1, h1, h1]
  have h2 : (if definedOn (mergedProps raw) "disableAnimations" then
      [Diagnostic.deprecatedDisableAnimations]
      else ([] : List Diagnostic)).countP Diagnostic.isStatelessWarn = 0 := by
    split <;> rfl
  rw [h2, noStatelessOf_eq]
  cases badChildOf (mergedProps raw) <;> simp [Diagnostic.isStatelessWarn]

/-- C8 (confirmed): exactly one aggregate warning is emitted exactly
when at least one canonicalized child is a stateless functional
component carrying a defined key; when every stateless child is
key-less, no warning is emitted (key-less children are always
accepted).  The validator only emits the diagnostic: by construction
of the pipeline it contributes nothing to the canonical props. -/
theorem c8_stateless_validator (raw : Props) :
    ((normalize raw).diags.countP Diagnostic.isStatelessWarn
      = if badChildOf (mergedProps raw) then 1 else 0) ∧
    ((∀ c ∈ childrenToArray (getPropD (mergedProps raw) "children"),
        isElementAnSFC c = true → childKeyIsUndefined c = true) →
      (normalize raw).diags.countP Diagnostic.isStatelessWarn = 0) := by
  refine ⟨countP_stateless_diags raw, fun hall => ?_⟩
  rw [countP_stateless_diags raw]
  have hb : badChildOf (mergedProps raw) = false := by
    rw [badChildOf]
    cases hany : (childrenToArray (getPropD (mergedProps raw) "children")).any
        (fun c => isElementAnSFC c && !childKeyIsUndefined c) with
    | false => rfl
    | true =>
      rw [List.any_eq_true] at hany
      obtain ⟨c, hc, hcb⟩ := hany
      rw [Bool.and_eq_true] at hcb
      have hkey := hall c hc hcb.1
      rw [hkey] at hcb
      exact Bool.noConfusion hcb.2
  rw [hb]
  rfl

/-! ## Claim C10 -/

/-- C10 (confirmed): a caller-supplied legacy disableAnimations field
is outside the recognized schema, so it lands inside the delegated bag
with its original value (and is hence forwarded toward the rendered
element), while being removed from the top level of the canonical
output. -/
theorem c10_legacy_field_delegated (raw : Props) (v : JSVal)
    (hv : getProp raw "disableAnimations" = some v) :
    ∃ d : Props,
      getProp (normalize raw).props "delegated" = some (JSVal.obj d) ∧
      getProp d "disableAnimations" = some v ∧
      getProp (normalize raw).props "disableAnimations" = none := by
  have hnp : "disableAnimations" ∉ primaryPropKeys := by decide
  have hmg : getProp (mergedProps raw) "disableAnimations" = some v := by
    rw [getProp_merged_nonprimary raw _ hnp, hv]
  refine ⟨delegatedOf (mergedProps raw), getProp_normalize_delegated raw,
    ?_, ?_⟩
  · simp only [delegatedOf]
    rw [getProp_setProp, if_neg (by decide), getProp_omitProps,
      show primaryPropKeys.contains "disableAnimations" = false from by decide]
    simp [hmg]
  · rw [normalize, getProp_convertProps, canonValue,
      contains_keysOf_delegatedOf]
    have hk : hasKey (mergedProps raw) "disableAnimations" = true := by
      rw [hasKey_eq_isSome, hmg]
      rfl
    simp [hnp, hk]

/-- Witness for C10 at a concrete input: the legacy field supplied with
the value false. -/
theorem c10_legacy_field_delegated_witness :
    getProp [("disableAnimations", JSVal.bool false)] "disableAnimations"
      = some (JSVal.bool false) ∧
    (∃ d : Props,
      getProp (normalize [("disableAnimations", JSVal.bool false)]).props
        "delegated" = some (JSVal.obj d) ∧
      getProp d "disableAnimations" = some (JSVal.bool false) ∧
      getProp (normalize [("disableAnimations", JSVal.bool false)]).props
        "disableAnimations" = none) :=
  ⟨rfl, c10_legacy_field_delegated _ _ rfl⟩

/-! ## Claim C9: support lemmas -/

theorem getProp_nonDelegatedOf (R : ConvertResult) (q : String) :
    getProp (nonDelegatedOf R) q
      = if q = "delegated" then none else getProp R.props q := by
  rw [nonDelegatedOf, getProp_omitProps]
  by_cases hq : q = "delegated" <;> simp [hq]

theorem merged_none_default (raw : Props) (k : String)
    (h : getProp (mergedProps raw) k = none) :
    getProp defaultProps k = none := by
  cases hraw : getProp raw k with
  | some w =>
    rw [getProp_mergedProps_of_raw_some _ _ _ hraw] at h
    exact Option.noConfusion h
  | none =>
    rw [getProp_mergedProps_of_raw_none _ _ hraw] at h
    exact h

theorem isFunction_not_undef (v : JSVal) (h : v.isFunction = true) :
    v.isUndefined = false := by
  cases v <;> simp_all [JSVal.isFunction, JSVal.isUndefined]

/-- Feeding a top-level canonical value back through the schema merge
is the identity, provided the value is defined or was itself the merged
value. -/
theorem merged_roundtrip_some (raw : Props) (k : String) (hk : k ≠ "delegated")
    (v : JSVal) (hcv : getProp (normalize raw).props k = some v)
    (hnu : v.isUndefined = false ∨ getProp (mergedProps raw) k = some v) :
    getProp (mergedProps (nonDelegatedOf (normalize raw))) k = some v := by
  have h2 : getProp (nonDelegatedOf (normalize raw)) k = some v := by
    rw [getProp_nonDelegatedOf, if_neg hk, hcv]
  rw [getProp_mergedProps_of_raw_some _ _ _ h2]
  rcases hnu with hnu | hm
  · simp [hnu]
  · cases hv : v.isUndefined with
    | false => simp [hv]
    | true =>
      have hd := merged_undef_default raw k v hm hv
      rw [hd, isUndef_eq v hv]
      simp

theorem merged_roundtrip_none (raw : Props) (k : String) (hk : k ≠ "delegated")
    (hcv : getProp (normalize raw).props k = none)
    (hm : getProp (mergedProps raw) k = none) :
    getProp (mergedProps (nonDelegatedOf (normalize raw))) k = none := by
  have h2 : getProp (nonDelegatedOf (normalize raw)) k = none := by
    rw [getProp_nonDelegatedOf, if_neg hk, hcv]
  rw [getProp_mergedProps_of_raw_none _ _ h2]
  exact merged_none_default raw k hm

/-- Keys outside the recognized schema (other than delegated itself)
never survive at the top level of the canonical output. -/
theorem getProp_normalize_nonprimary_none (raw : Props) (k : String)
    (hknpm : k ∉ primaryPropKeys) (hkd : k ≠ "delegated") :
    getProp (normalize raw).props k = none := by
  rw [normalize, getProp_convertProps, canonValue, contains_keysOf_delegatedOf]
  by_cases hsty : k = "style"
  · simp [hkd, hsty]
  · have h1 : k ≠ "disableAllAnimations" :=
      fun h => hknpm (h ▸ (by decide : "disableAllAnimations" ∈ primaryPropKeys))
    have h2 : k ≠ "leaveClassName" :=
      fun h => hknpm (h ▸ (by decide : "leaveClassName" ∈ primaryPropKeys))
    have h3 : k ≠ "enterClassName" :=
      fun h => hknpm (h ▸ (by decide : "enterClassName" ∈ primaryPropKeys))
    have h4 : k ≠ "staggerDelayBy" :=
      fun h => hknpm (h ▸ (by decide : "staggerDelayBy" ∈ primaryPropKeys))
    have h5 : k ≠ "staggerDurationBy" :=
      fun h => hknpm (h ▸ (by decide : "staggerDurationBy" ∈ primaryPropKeys))
    have h6 : k ≠ "delay" :=
      fun h => hknpm (h ▸ (by decide : "delay" ∈ primaryPropKeys))
    have h7 : k ≠ "duration" :=
      fun h => hknpm (h ▸ (by decide : "duration" ∈ primaryPropKeys))
    have h8 : k ≠ "children" :=
      fun h => hknpm (h ▸ (by decide : "children" ∈ primaryPropKeys))
    by_cases hkey : hasKey (mergedProps raw) k
    · simp [hkd, hsty, hknpm, hkey]
    · have hkf : hasKey (mergedProps raw) k = false := by
        cases hh : hasKey (mergedProps raw) k
        · rfl
        · exact absurd hh hkey
      have hgm : getProp (mergedProps raw) k = none := by
        rw [hasKey_eq_isSome] at hkf
        cases hg : getProp (mergedProps raw) k
        · rfl
        · rw [hg] at hkf
          exact Bool.noConfusion hkf
      by_cases hda : k = "disableAnimations"
      · subst hda
        have hdd : definedOn (mergedProps raw) "disableAnimations" = false := by
          rw [definedOn, getPropD, hgm]
          rfl
        simp [hkf, hgm, hdd]
      · simp [hkd, hsty, hknpm, hkf, hda, h1, h2, h3, h4, h5, h6, h7, h8, hgm]

/-- The canonical value of the primary keys untouched by any pipeline
stage is the schema-merged value. -/
theorem getProp_normalize_passthrough (raw : Props) (k : String)
    (hkp : k ∈ primaryPropKeys) (h1 : k ≠ "disableAllAnimations")
    (h2 : k ≠ "leaveClassName") (h3 : k ≠ "enterClassName")
    (h4 : k ∉ timingPropNames) (h5 : k ≠ "children") :
    getProp (normalize raw).props k = getProp (mergedProps raw) k := by
  have hsty : k ≠ "style" :=
    fun h => (by decide : ("style" : String) ∉ primaryPropKeys) (h ▸ hkp)
  have hdel : k ≠ "delegated" :=
    fun h => (by decide : ("delegated" : String) ∉ primaryPropKeys) (h ▸ hkp)
  have hda : k ≠ "disableAnimations" :=
    fun h => (by decide : ("disableAnimations" : String) ∉ primaryPropKeys) (h ▸ hkp)
  have ht1 : k ≠ "duration" := fun h => h4 (by rw [h]; decide)
  have ht2 : k ≠ "delay" := fun h => h4 (by rw [h]; decide)
  have ht3 : k ≠ "staggerDurationBy" := fun h => h4 (by rw [h]; decide)
  have ht4 : k ≠ "staggerDelayBy" := fun h => h4 (by rw [h]; decide)
  rw [normalize, getProp_convertProps, canonValue, contains_keysOf_delegatedOf]
  simp [hdel, hsty, hkp, h1, h2, h3, ht1, ht2, ht3, ht4, h5, hda]

/-- The canonical disableAllAnimations value: the legacy field's value
when the shim fires, the schema-merged value otherwise. -/
theorem getProp_normalize_dAA (raw : Props) :
    getProp (normalize raw).props "disableAllAnimations"
      = if definedOn (mergedProps raw) "disableAnimations" then
          some (getPropD (mergedProps raw) "disableAnimations")
        else getProp (mergedProps raw) "disableAllAnimations" := by
  rw [normalize, getProp_convertProps, canonValue, contains_keysOf_delegatedOf]
  have hp : ("disableAllAnimations" : String) ∈ primaryPropKeys := by decide
  by_cases hsh : definedOn (mergedProps raw) "disableAnimations" = true <;>
    simp [hp, hsh]

/-! ## Claim C9: per-key roundtrip lemmas -/

theorem roundtrip_passthrough (raw : Props) (k : String)
    (hkp : k ∈ primaryPropKeys) (h1 : k ≠ "disableAllAnimations")
    (h2 : k ≠ "leaveClassName") (h3 : k ≠ "enterClassName")
    (h4 : k ∉ timingPropNames) (h5 : k ≠ "children") :
    getProp (normalize (nonDelegatedOf (normalize raw))).props k
      = getProp (normalize raw).props k := by
  have hkd : k ≠ "delegated" :=
    fun h => (by decide : ("delegated" : String) ∉ primaryPropKeys) (h ▸ hkp)
  rw [getProp_normalize_passthrough _ _ hkp h1 h2 h3 h4 h5,
    getProp_normalize_passthrough _ _ hkp h1 h2 h3 h4 h5]
  cases hv : getProp (mergedProps raw) k with
  | some v =>
    rw [merged_roundtrip_some raw k hkd v
      (by rw [getProp_normalize_passthrough _ _ hkp h1 h2 h3 h4 h5]; exact hv)
      (Or.inr hv)]
  | none =>
    rw [merged_roundtrip_none raw k hkd
      (by rw [getProp_normalize_passthrough _ _ hkp h1 h2 h3 h4 h5]; exact hv)
      hv]

theorem roundtrip_anim (raw : Props) (k : String)
    (hf : k = "enterClassName" ∨ k = "leaveClassName") :
    getProp (normalize (nonDelegatedOf (normalize raw))).props k
      = getProp (normalize raw).props k := by
  have hkd : k ≠ "delegated" := by rcases hf with rfl | rfl <;> decide
  rw [getProp_normalize_anim _ _ hf, getProp_normalize_anim _ _ hf]
  have h2 := merged_roundtrip_some raw k hkd _
    (getProp_normalize_anim raw k hf)
    (Or.inl (isFunction_not_undef _ (convertAnimationProp_isFunction _)))
  rw [getPropD, h2]
  simp [convertAnimationProp_idem]

theorem roundtrip_timing (raw : Props) (f : String) (hf : f ∈ timingPropNames) :
    getProp (normalize (nonDelegatedOf (normalize raw))).props f
      = getProp (normalize raw).props f := by
  have hkd : f ≠ "delegated" := by fin_cases hf <;> decide
  rw [getProp_normalize_timing _ _ hf, getProp_normalize_timing _ _ hf]
  have hnu : (coerceTimingValue f (getPropD (mergedProps raw) f)).isUndefined
      = false := by
    apply coerceTimingValue_not_undefined
    fin_cases hf <;> rfl
  have h2 := merged_roundtrip_some raw f hkd _
    (getProp_normalize_timing raw f hf) (Or.inl hnu)
  rw [getPropD, h2]
  simp only [Option.getD_some]
  rw [coerceTimingValue_idem f _ (by fin_cases hf <;> rfl)
    (by fin_cases hf <;> rfl)]

theorem roundtrip_children (raw : Props) :
    getProp (normalize (nonDelegatedOf (normalize raw))).props "children"
      = getProp (normalize raw).props "children" := by
  rw [getProp_normalize_children, getProp_normalize_children]
  have h2 := merged_roundtrip_some raw "children" (by decide) _
    (getProp_normalize_children raw) (Or.inl rfl)
  rw [getPropD, h2]
  simp only [Option.getD_some]
  rw [childrenToArray_idem]

theorem roundtrip_dAA (raw : Props)
    (hdefP2 : definedOn (mergedProps (nonDelegatedOf (normalize raw)))
      "disableAnimations" = false) :
    getProp (normalize (nonDelegatedOf (normalize raw))).props
        "disableAllAnimations"
      = getProp (normalize raw).props "disableAllAnimations" := by
  rw [getProp_normalize_dAA, getProp_normalize_dAA, hdefP2]
  simp only [Bool.false_eq_true, if_false]
  by_cases hsh : definedOn (mergedProps raw) "disableAnimations" = true
  · rw [if_pos hsh]
    have hnu : (getPropD (mergedProps raw) "disableAnimations").isUndefined
        = false := by
      rw [definedOn] at hsh
      cases h : (getPropD (mergedProps raw) "disableAnimations").isUndefined
      · rfl
      · rw [h] at hsh
        exact Bool.noConfusion hsh
    exact merged_roundtrip_some raw _ (by decide) _
      (by rw [getProp_normalize_dAA, if_pos hsh]) (Or.inl hnu)
  · rw [if_neg hsh]
    cases hv : getProp (mergedProps raw) "disableAllAnimations" with
    | some v =>
      rw [merged_roundtrip_some raw _ (by decide) v
        (by rw [getProp_normalize_dAA, if_neg hsh]; exact hv) (Or.inr hv)]
    | none =>
      rw [merged_roundtrip_none raw _ (by decide)
        (by rw [getProp_normalize_dAA, if_neg hsh]; exact hv) hv]

/-! ## Claim C9 -/

/-- C9 (confirmed): normalization is idempotent on its non-delegated
result — re-supplying the canonical output minus its delegated bag as a
raw input reproduces every non-delegated canonical field: re-coercing
the already-integer timing values, re-wrapping the already-callable
animation fields and re-flattening the already-flat children are all
no-ops, the legacy shim cannot re-fire, and every other field passes
through the schema merge unchanged. -/
theorem c9_normalize_idempotent (raw : Props) (k : String)
    (hk : k ≠ "delegated") :
    getProp (normalize (nonDelegatedOf (normalize raw))).props k
      = getProp (normalize raw).props k := by
  have hP2da : getProp (mergedProps (nonDelegatedOf (normalize raw)))
      "disableAnimations" = none := by
    have h2 : getProp (nonDelegatedOf (normalize raw)) "disableAnimations"
        = none := by
      rw [getProp_nonDelegatedOf]
      simp [getProp_normalize_nonprimary_none raw "disableAnimations"
        (by decide) (by decide)]
    rw [getProp_mergedProps_of_raw_none _ _ h2]
    rfl
  have hdefP2 : definedOn (mergedProps (nonDelegatedOf (normalize raw)))
      "disableAnimations" = false := by
    rw [definedOn, getPropD, hP2da]
    rfl
  by_cases hknp : k ∈ primaryPropKeys
  case neg =>
    rw [getProp_normalize_nonprimary_none _ k hknp hk,
      getProp_normalize_nonprimary_none _ k hknp hk]
  case pos =>
    fin_cases hknp
    · exact roundtrip_children raw
    · exact roundtrip_passthrough raw _ (by decide) (by decide) (by decide)
        (by decide) (by decide) (by decide)
    · exact roundtrip_timing raw _ (by decide)
    · exact roundtrip_timing raw _ (by decide)
    · exact roundtrip_timing raw _ (by decide)
    · exact roundtrip_timing raw _ (by decide)
    · exact roundtrip_passthrough raw _ (by decide) (by decide) (by decide)
        (by decide) (by decide) (by decide)
    · exact roundtrip_passthrough raw _ (by decide) (by decide) (by decide)
        (by decide) (by decide) (by decide)
    · exact roundtrip_passthrough raw _ (by decide) (by decide) (by decide)
        (by decide) (by decide) (by decide)
    · exact roundtrip_passthrough raw _ (by decide) (by decide) (by decide)
        (by decide) (by decide) (by decide)
    · exact roundtrip_passthrough raw _ (by decide) (by decide) (by decide)
        (by decide) (by decide) (by decide)
    · exact roundtrip_anim raw _ (Or.inl rfl)
    · exact roundtrip_anim raw _ (Or.inr rfl)
    · exact roundtrip_dAA raw hdefP2
    · exact roundtrip_passthrough raw _ (by decide) (by decide) (by decide)
        (by decide) (by decide) (by decide)
    · exact roundtrip_passthrough raw _ (by decide) (by decide) (by decide)
        (by decide) (by decide) (by decide)

/-- Witness for C9 at a concrete input and key. -/
theorem c9_normalize_idempotent_witness :
    ("duration" : String) ≠ "delegated" ∧
    getProp (normalize (nonDelegatedOf
        (normalize [("duration", JSVal.str "500"),
          ("foo", JSVal.num (JSNum.finite 2))]))).props "duration"
      = getProp (normalize [("duration", JSVal.str "500"),
          ("foo", JSVal.num (JSNum.finite 2))]).props "duration" :=
  ⟨by decide, c9_normalize_idempotent [("duration", JSVal.str "500"),
    ("foo", JSVal.num (JSNum.finite 2))] "duration" (by decide)⟩

end FlipMove
